import Mathlib

/-!
Verification of the tttr-toolbox streaming TTTR analysis engine.

This file gives a shallow embedding, in Lean 4, of the parts of the
tttr-toolbox Rust crate that the specification claims talk about:

* the per-format record decoders (`src/tttr-toolbox/src/parsers/ptu/streamers.rs`),
* the header record-type lookup (`src/tttr-toolbox/src/parsers/ptu/mod.rs`),
* the ring buffers (`circular_buffer.rs`, `colored_circular_buffer.rs`),
* the stream framing produced by the `make_ptu_stream` proc macro and the
  hand-written `HHT3_HH2Stream::next`,
* the intensity-trace, g2, g3 and zero-finder compute loops, and
* the engine dispatchers (`lifetime.rs`, `g2.rs`).

Machine integers are modelled as `Nat` (u64/u32) and `Int` (i32/i64); where
the Rust code relies on the documented invariant that subtractions between
times-of-flight never underflow, the embedding uses truncated `Nat`
subtraction and the theorems carry that invariant as a hypothesis.  The one
place where wrap-around of a machine integer is semantically relevant — the
`as usize` cast of a negative `i64` in the ring-buffer iterator — is
modelled exactly, as reduction modulo `2 ^ 64`.
-/

namespace TTTR

/-- Canonical decoded event, `TTTRRecord` in `lib.rs`: a signed 32-bit
channel and an unsigned 64-bit time of flight. -/
structure TTTRRecord where
  channel : Int
  tof : Nat
  deriving Repr, DecidableEq

/-- The record-format enumeration of `headers.rs`.  The source enum has
exactly these four variants (`PHT2`, `HHT2_HH1`, `HHT2_HH2`,
`NotImplemented`). -/
inductive RecordType where
  | PHT2
  | HHT2_HH1
  | HHT2_HH2
  | NotImplemented
  deriving Repr, DecidableEq

/-- The error enumeration of `errors.rs`.  Message payloads (strings) are
dropped; only the variant matters for the claims. -/
inductive Error where
  | fileNotAvailable
  | ioError
  | wrongEnumVariant
  | invalidHeader
  | notImplemented
  deriving Repr, DecidableEq

/-- `PTUFile::record_type` from `parsers/ptu/mod.rs` lines 121-142: decode
the `TTResultFormat_TTTRRecType` tag value (an `i64` RecType code) through
`FromPrimitive::from_i64` and map each `RecType` variant to a
`headers::RecordType`.  Unknown codes give `InvalidHeader`. -/
def recordTypeOfCode (code : Int) : Except Error RecordType :=
  if code = 0x00010303 then .ok .NotImplemented      -- PicoHarpT3
  else if code = 0x00010203 then .ok .PHT2           -- PicoHarpT2
  else if code = 0x00010304 then .ok .NotImplemented -- HydraHarpT3
  else if code = 0x00010204 then .ok .HHT2_HH2       -- HydraHarpT2
  else if code = 0x01010304 then .ok .NotImplemented -- HydraHarp2T3
  else if code = 0x01010204 then .ok .HHT2_HH1       -- HydraHarp2T2
  else if code = 0x00010305 then .ok .NotImplemented -- TimeHarp260NT3
  else if code = 0x00010205 then .ok .HHT2_HH2       -- TimeHarp260NT2
  else if code = 0x00010306 then .ok .NotImplemented -- TimeHarp260PT3
  else if code = 0x00010206 then .ok .HHT2_HH2       -- TimeHarp260PT2
  else .error .invalidHeader

/-- `PHT2Stream::parse_record` (streamers.rs lines 18-54).  Input: the
packed 32-bit record and the current `overflow_correction` accumulator.
Output: the emitted event and the updated accumulator. -/
def pht2ParseRecord (record : Nat) (overflow : Nat) : TTTRRecord × Nat :=
  let ch : Int := ((record &&& 0xF0000000) >>> 28 : Nat)
  let tm : Nat := record &&& 0x0FFFFFFF
  if ch = 0xF then
    let markers := tm &&& 0xF
    if markers = 0 then
      -- overflow record
      (⟨-1, 0⟩, overflow + 210698240)
    else
      -- marker record
      (⟨-2, overflow + tm⟩, overflow)
  else
    (⟨ch, overflow + tm⟩, overflow)

/-- Fold `pht2ParseRecord` over a list of records, tracking only the
overflow accumulator (the decoder-private stream state). -/
def pht2FoldOverflow (overflow : Nat) : List Nat → Nat
  | [] => overflow
  | r :: rs => pht2FoldOverflow (pht2ParseRecord r overflow).2 rs

/-- `HHT2_HH1Stream::parse_record` (streamers.rs lines 59-77). -/
def hht2hh1ParseRecord (record : Nat) (overflow : Nat) : TTTRRecord × Nat :=
  let sp : Nat := if (record &&& 0x80000000) >>> 31 = 1 then 1 else 0
  let ch : Nat := (record &&& 0x7E000000) >>> 25
  let tm : Nat := record &&& 0x01FFFFFF
  let overflow := overflow + 33552000 * sp * (if ch = 0x3F then 1 else 0)
  let channel : Int := (1 - (sp : Int)) * ((ch : Int) + 1) - (sp : Int) * (ch : Int)
  (⟨channel, overflow + tm⟩, overflow)

/-- `HHT2_HH2Stream::parse_record` (streamers.rs lines 82-98).  Note:
the source advances `overflow_correction` by `T2WRAPAROUND * tm` whenever
`ch == 0x3F`, with no factor for the special bit `sp`. -/
def hht2hh2ParseRecord (record : Nat) (overflow : Nat) : TTTRRecord × Nat :=
  let sp : Nat := if (record &&& 0x80000000) >>> 31 = 1 then 1 else 0
  let ch : Nat := (record &&& 0x7E000000) >>> 25
  let tm : Nat := record &&& 0x01FFFFFF
  let overflow := overflow + 33554432 * tm * (if ch = 0x3F then 1 else 0)
  let channel : Int := (1 - (sp : Int)) * ((ch : Int) + 1) - (sp : Int) * (ch : Int)
  (⟨channel, overflow + tm⟩, overflow)

/-- Decoder-private state of `HHT3_HH2Stream`: the accumulated sync counter
`nsync` plus the (constant) sync period and dtime resolution in picoseconds. -/
structure T3State where
  nsync : Nat
  syncPeriod : Nat
  dtimeRes : Nat
  deriving Repr, DecidableEq

/-- `HHT3_HH2Stream::parse_record` (streamers.rs lines 175-219). -/
def hht3ParseRecord (record : Nat) (s : T3State) : TTTRRecord × T3State :=
  let sp : Nat := if (record &&& 0x80000000) >>> 31 = 1 then 1 else 0
  let ch : Nat := (record &&& 0x7E000000) >>> 25
  let dtime : Nat := (record &&& 0x01FFFC00) >>> 10
  let nsync : Nat := record &&& 0x000003FF
  if sp = 1 then
    if ch = 0x3F then
      let acc := if nsync = 0 then s.nsync + 1024 else s.nsync + 1024 * nsync
      (⟨0, acc * s.syncPeriod⟩, { s with nsync := acc })
    else if 1 ≤ ch ∧ ch ≤ 15 then
      (⟨-1, s.nsync * s.syncPeriod⟩, s)
    else
      (⟨-1, 0⟩, s)
  else
    let truensync := s.nsync + nsync
    (⟨(ch : Int) + 1, truensync * s.syncPeriod + dtime * s.dtimeRes⟩, s)

/-- Outcome of invoking an engine dispatcher on a record type: a normal
return, an error return, or a Rust `panic!`. -/
inductive EngineOutcome where
  | ok
  | err (e : Error)
  | panicked
  deriving Repr, DecidableEq

/-- The record-type dispatch of `lifetime` (lifetime.rs lines 97-124): every
T2 record type returns `Err(NotImplemented)`; the `NotImplemented` sentinel
hits an explicit `panic!`.  (The source also matches a `HHT3_HH2` variant,
which does not exist in the `headers.rs` enum and is not produced by
`record_type`; it is the engine's `Ok` path.) -/
def lifetimeDispatch : RecordType → EngineOutcome
  | .PHT2 => .err .notImplemented
  | .HHT2_HH1 => .err .notImplemented
  | .HHT2_HH2 => .err .notImplemented
  | .NotImplemented => .panicked

/-- The record-type dispatch of `g2` (g2.rs lines 143-175): the three T2
record types run the engine; the `NotImplemented` sentinel hits an explicit
`panic!`. -/
def g2Dispatch : RecordType → EngineOutcome
  | .PHT2 => .ok
  | .HHT2_HH1 => .ok
  | .HHT2_HH2 => .ok
  | .NotImplemented => .panicked

/-- The Rust `x as usize` cast of an `i64` value: reduction modulo `2 ^ 64`.
Used by the ring-buffer iterator, where `self.pos + 1` can be negative. -/
def i64AsUsize (x : Int) : Nat := (x % (2 ^ 64 : Int)).toNat

/-- `CircularBuffer` (circular_buffer.rs) and `CCircularBuffer`
(colored_circular_buffer.rs) share this shape: a `Vec` that grows up to the
capacity passed to `new`, plus an `i64` head index.  The element type is a
parameter; the scalar buffer instantiates it with `Nat` (u64 tof) and the
coloured buffer with `Nat × Int` (tof, channel). -/
structure CircularBuffer (α : Type) where
  buffer : List α
  head : Int
  deriving Repr, DecidableEq

namespace CircularBuffer

/-- `CircularBuffer::new` — empty vector, head 0.  The capacity is carried
as an explicit argument of `push` (in Rust it is the Vec's capacity). -/
def new (α : Type) : CircularBuffer α := ⟨[], 0⟩

/-- `CircularBuffer::len` — the current Vec length. -/
def len {α : Type} (s : CircularBuffer α) : Nat := s.buffer.length

/-- `CircularBuffer::push` (circular_buffer.rs lines 15-26): append while
`len < capacity`, else overwrite the slot at `head`; then advance `head` by
one modulo the capacity.  `head` is always non-negative, so Rust's
truncating `%` agrees with `Int.emod`. -/
def push {α : Type} (cap : Nat) (s : CircularBuffer α) (v : α) : CircularBuffer α :=
  let buffer :=
    if s.buffer.length < cap then s.buffer ++ [v]
    else s.buffer.set s.head.toNat v
  ⟨buffer, (s.head + 1) % (cap : Int)⟩

/-- Push a whole list of values in order. -/
def pushMany {α : Type} (cap : Nat) (s : CircularBuffer α) (vs : List α) : CircularBuffer α :=
  vs.foldl (push cap) s

/-- The element sequence produced by `IterCircularBuffer` (circular_buffer.rs
lines 48-64): the guard `pos > oldest_idx` admits exactly `len` yields, and
the k-th yield reads index `((head - 1 - k) as usize) % len`.  Out-of-range
reads (`get_unchecked`) are modelled by `getD` with default `d`. -/
def iter {α : Type} (d : α) (s : CircularBuffer α) : List α :=
  (List.range s.buffer.length).map
    (fun k : Nat => s.buffer.getD (i64AsUsize (s.head - 1 - (k : Int)) % s.buffer.length) d)

end CircularBuffer

/-- The push index whose value still occupies slot `i` of the Vec after `n`
pushes into a capacity-`cap` buffer (the most recent write to that slot). -/
def lastWrite (n cap i : Nat) : Nat :=
  if n ≤ cap then i
  else if i < n % cap then n - n % cap + i
  else n - n % cap + i - cap

/-- State of a T2 record stream generated by the `make_ptu_stream` macro
(tttr-toolbox-proc-macros/src/lib.rs lines 54-148): the unread words of the
file body after the seek, the unconsumed part of the 16384-word
`click_buffer`, `click_count`, `num_records`, and the decoder-private state
`σ` (the overflow accumulator for the three T2 decoders). -/
structure T2Stream (σ : Type) where
  file : List Nat
  buffer : List Nat
  clickCount : Nat
  numRecords : Nat
  decoderState : σ

/-- `Iterator::next` from the `make_ptu_stream` macro (proc-macros lib.rs
lines 112-145): stop once `click_count ≥ num_records`; on an empty buffer
read `min(records_remaining, 16384)` words — a short read (`read_u32_into`
error) terminates the stream with no error surfaced — then decode and yield
the next buffered word. -/
def t2Next {σ : Type} (parse : Nat → σ → TTTRRecord × σ) (s : T2Stream σ) :
    Option (TTTRRecord × T2Stream σ) :=
  if s.numRecords ≤ s.clickCount then none
  else
    match s.buffer with
    | r :: rest =>
      let p := parse r s.decoderState
      some (p.1, ⟨s.file, rest, s.clickCount + 1, s.numRecords, p.2⟩)
    | [] =>
      let req := min (s.numRecords - s.clickCount) 16384
      if s.file.length < req then none
      else
        match s.file.take req with
        | [] => none
        | r :: rest =>
          let p := parse r s.decoderState
          some (p.1, ⟨s.file.drop req, rest, s.clickCount + 1, s.numRecords, p.2⟩)

/-- Iterate a T2 stream to exhaustion, collecting the yielded events. -/
def t2Run {σ : Type} (parse : Nat → σ → TTTRRecord × σ) (s : T2Stream σ) :
    List TTTRRecord :=
  match h : t2Next parse s with
  | none => []
  | some (r, s2) => r :: t2Run parse s2
termination_by s.numRecords - s.clickCount
decreasing_by
    unfold t2Next at h
    by_cases hc : s.numRecords ≤ s.clickCount
    · rw [if_pos hc] at h
      exact absurd h (by simp)
    · rw [if_neg hc] at h
      rcases hb : s.buffer with _ | ⟨r0, rest⟩
      · rw [hb] at h
        simp only at h
        by_cases hf : s.file.length < min (s.numRecords - s.clickCount) 16384
        · rw [if_pos hf] at h
          exact absurd h (by simp)
        · rw [if_neg hf] at h
          rcases ht : s.file.take (min (s.numRecords - s.clickCount) 16384) with _ | ⟨r1, rest1⟩
          · rw [ht] at h
            exact absurd h (by simp)
          · rw [ht] at h
            simp only [Option.some.injEq, Prod.mk.injEq] at h
            obtain ⟨-, h2⟩ := h
            rw [← h2]
            dsimp only
            omega
      · rw [hb] at h
        simp only [Option.some.injEq, Prod.mk.injEq] at h
        obtain ⟨-, h2⟩ := h
        rw [← h2]
        dsimp only
        omega

/-- State of the hand-written `HHT3_HH2Stream` iterator (streamers.rs lines
108-252): unread file words, unconsumed part of the 16384-word
`click_buffer`, `click_count`, `num_records`, and the T3 decoder state. -/
structure HHT3Stream where
  file : List Nat
  buffer : List Nat
  clickCount : Nat
  numRecords : Nat
  state : T3State
  deriving DecidableEq

/-- `HHT3_HH2Stream::next` (streamers.rs lines 226-252).  Unlike the macro
framing, on an empty buffer it always reads a full 16384-word block (a
partial block fails the read and ends the stream), and it compares
`click_count` with `num_records` only after that read. -/
def hht3Next (s : HHT3Stream) : Option (TTTRRecord × HHT3Stream) :=
  match s.buffer with
  | r :: rest =>
    let p := hht3ParseRecord r s.state
    some (p.1, ⟨s.file, rest, s.clickCount + 1, s.numRecords, p.2⟩)
  | [] =>
    if s.file.length < 16384 then none
    else if s.numRecords ≤ s.clickCount then none
    else
      match s.file.take 16384 with
      | [] => none
      | r :: rest =>
        let p := hht3ParseRecord r s.state
        some (p.1, ⟨s.file.drop 16384, rest, s.clickCount + 1, s.numRecords, p.2⟩)

/-- Iterate the `HHT3_HH2` stream to exhaustion. -/
def hht3Run (s : HHT3Stream) : List TTTRRecord :=
  match h : hht3Next s with
  | none => []
  | some (r, s2) => r :: hht3Run s2
termination_by s.file.length + s.buffer.length
decreasing_by
    unfold hht3Next at h
    rcases hb : s.buffer with _ | ⟨r0, rest⟩
    · rw [hb] at h
      simp only at h
      by_cases hf : s.file.length < 16384
      · rw [if_pos hf] at h
        exact absurd h (by simp)
      · rw [if_neg hf] at h
        by_cases hc : s.numRecords ≤ s.clickCount
        · rw [if_pos hc] at h
          exact absurd h (by simp)
        · rw [if_neg hc] at h
          rcases ht : s.file.take 16384 with _ | ⟨r1, rest1⟩
          · rw [ht] at h
            exact absurd h (by simp)
          · rw [ht] at h
            simp only [Option.some.injEq, Prod.mk.injEq] at h
            obtain ⟨-, h2⟩ := h
            have hrest1 : rest1.length = 16383 := by
              have := congrArg List.length ht
              rw [List.length_take] at this
              simp only [List.length_cons] at this
              omega
            rw [← h2]
            dsimp only
            simp only [List.length_drop, List.length_nil]
            omega
    · rw [hb] at h
      simp only [Option.some.injEq, Prod.mk.injEq] at h
      obtain ⟨-, h2⟩ := h
      rw [← h2]
      dsimp only
      simp only [List.length_cons]
      omega

/-- Fold the T3 decoder over a block of records (the decoder state reached
after consuming them). -/
def t3Fold (st : T3State) : List Nat → T3State
  | [] => st
  | r :: rs => t3Fold (hht3ParseRecord r st).2 rs

/-- One event step of `TimeTrace::compute` (timetrace.rs lines 46-59).
State: running counter, current bin end.  The counter is incremented first
(on a channel match, or on any non-negative channel when no filter is set),
and only then is the bin boundary `tof > end_of_bin` tested. -/
def timeTraceStep (channel : Option Int) (blipsPerBin : Nat)
    (acc : List Nat × List Nat × Nat × Nat) (idx : Nat) (e : TTTRRecord) :
    List Nat × List Nat × Nat × Nat :=
  let (trace, recnum, counter, endOfBin) := acc
  let counter :=
    match channel with
    | some ch => counter + (if e.channel = ch then 1 else 0)
    | none => counter + (if 0 ≤ e.channel then 1 else 0)
  if endOfBin < e.tof then
    (trace ++ [counter], recnum ++ [idx], 0, endOfBin + blipsPerBin)
  else
    (trace, recnum, counter, endOfBin)

/-- `TimeTrace::compute` (timetrace.rs lines 34-64) over a decoded event
list, with `blips_per_bin` already in ticks.  Returns the intensity trace
and the record-number trace; no trailing partial bin is emitted. -/
def timeTraceCompute (channel : Option Int) (blipsPerBin : Nat)
    (events : List TTTRRecord) : List Nat × List Nat :=
  let final : List Nat × List Nat × Nat × Nat := (events.enum.foldl
    (fun acc p => timeTraceStep channel blipsPerBin acc p.1 p.2)
    ([], [], 0, blipsPerBin))
  (final.1, final.2.1)

/-- Increment a 1-D histogram vector at `idx` (`histogram[idx] += 1`). -/
def bump (hist : List Nat) (idx : Nat) : List Nat :=
  hist.set idx (hist.getD idx 0 + 1)

/-- The channel-1 branch of the g2 buffer scan (g2.rs lines 68-76): walk the
other channel's buffer newest-first; while `delta < correlation_window`
increment `histogram[central_bin - delta / resolution - 1]`, else stop. -/
def g2ScanNeg (cw res central tof : Nat) : List Nat → List Nat → List Nat
  | hist, [] => hist
  | hist, c :: rest =>
    let delta := tof - c
    if delta < cw then
      g2ScanNeg cw res central tof (bump hist (central - delta / res - 1)) rest
    else hist

/-- The channel-2 branch of the g2 buffer scan (g2.rs lines 80-88): same walk
with index `central_bin + delta / resolution`. -/
def g2ScanPos (cw res central tof : Nat) : List Nat → List Nat → List Nat
  | hist, [] => hist
  | hist, c :: rest =>
    let delta := tof - c
    if delta < cw then
      g2ScanPos cw res central tof (bump hist (central + delta / res)) rest
    else hist

/-- One event of `G2::compute` (g2.rs lines 62-90): push onto the matching
channel's buffer, then scan the opposite buffer. -/
def g2Step (ch1 ch2 : Int) (cw res central : Nat)
    (st : List Nat × CircularBuffer Nat × CircularBuffer Nat) (e : TTTRRecord) :
    List Nat × CircularBuffer Nat × CircularBuffer Nat :=
  let (hist, b1, b2) := st
  if e.channel = ch1 then
    let b1 := CircularBuffer.push 4096 b1 e.tof
    (g2ScanNeg cw res central e.tof hist (CircularBuffer.iter 0 b2), b1, b2)
  else if e.channel = ch2 then
    let b2 := CircularBuffer.push 4096 b2 e.tof
    (g2ScanPos cw res central e.tof hist (CircularBuffer.iter 0 b1), b1, b2)
  else
    (hist, b1, b2)

/-- `G2::compute` (g2.rs lines 39-98) with tick-valued parameters.
`nBinsSide` is `n_bins = (correlation_window / resolution) as u64` before
doubling and `res` is the integral resolution in ticks, so
`correlation_window = nBinsSide * res`, `n_bins = 2 * nBinsSide` and
`central_bin = n_bins / 2` exactly as in lines 44-52. -/
def g2Compute (ch1 ch2 : Int) (nBinsSide res : Nat) (events : List TTTRRecord) : List Nat :=
  let cw := nBinsSide * res
  let nBins := 2 * nBinsSide
  let central := nBins / 2
  (events.foldl (g2Step ch1 ch2 cw res central)
    (List.replicate nBins 0, .new Nat, .new Nat)).1

/-- One event of `ZeroFinder::compute` (zero_finder.rs lines 57-77): the
state holds the histogram and the retained most recent time per channel
(`prev_tof_channel_1`, `prev_tof_channel_2`), both initialised to 0. -/
def zeroFinderStep (ch1 ch2 : Int) (cw res central : Nat)
    (st : List Nat × Nat × Nat) (e : TTTRRecord) : List Nat × Nat × Nat :=
  let (hist, prev1, prev2) := st
  if e.channel = ch1 then
    let delta := e.tof - prev2
    if delta < cw then
      (bump hist (central - delta / res - 1), e.tof, prev2)
    else
      (hist, e.tof, prev2)
  else if e.channel = ch2 then
    let delta := e.tof - prev1
    if delta < cw then
      (bump hist (central + delta / res), prev1, e.tof)
    else
      (hist, prev1, e.tof)
  else
    (hist, prev1, prev2)

/-- `ZeroFinder::compute` (zero_finder.rs lines 34-86) with tick-valued
parameters, precomputed as in `g2Compute`. -/
def zeroFinderCompute (ch1 ch2 : Int) (nBinsSide res : Nat)
    (events : List TTTRRecord) : List Nat :=
  let cw := nBinsSide * res
  let nBins := 2 * nBinsSide
  let central := nBins / 2
  (events.foldl (zeroFinderStep ch1 ch2 cw res central)
    (List.replicate nBins 0, 0, 0)).1

/-- Increment a 2-D histogram at cell `(i, j)`
(`histogram[[idx1, idx2]] += 1`). -/
def bump2 (hist : Nat → Nat → Nat) (i j : Nat) : Nat → Nat → Nat :=
  fun a b => if a = i ∧ b = j then hist a b + 1 else hist a b

/-- The inner loop of `G3::compute` (g3.rs lines 77-216): iterate the full
coloured buffer newest-first as `(t3, c3)`; `continue` when `t3 ≥ t2`; on a
matched channel permutation either count the pair or, when a τ reaches the
correlation window, `break`.  The permutation dispatch is the literal
nested-`if` cascade of lines 119-215. -/
def g3Inner (p1 p2 p3 : Int) (cw res central : Nat) (t1 : Nat) (c1 : Int)
    (t2 : Nat) (c2 : Int) : (Nat → Nat → Nat) → List (Nat × Int) → Nat → Nat → Nat
  | hist, [] => hist
  | hist, (t3, c3) :: rest =>
    if t2 ≤ t3 then g3Inner p1 p2 p3 cw res central t1 c1 t2 c2 hist rest
    else
      let delta12 := t1 - t2
      let delta23 := t2 - t3
      let delta13 := t1 - t3
      if c1 = p1 then
        if c2 = p2 then
          if c3 = p3 then
            -- (321): tau_1 < 0, tau_2 < 0
            let tau1 := delta12
            let tau2 := delta13
            if tau1 < cw ∧ tau2 < cw then
              g3Inner p1 p2 p3 cw res central t1 c1 t2 c2
                (bump2 hist (central - tau1 / res - 1) (central - tau2 / res - 1)) rest
            else hist
          else g3Inner p1 p2 p3 cw res central t1 c1 t2 c2 hist rest
        else if c2 = p3 then
          if c3 = p2 then
            -- (231): tau_1 < 0, tau_2 < 0
            let tau1 := delta13
            let tau2 := delta12
            if tau1 < cw ∧ tau2 < cw then
              g3Inner p1 p2 p3 cw res central t1 c1 t2 c2
                (bump2 hist (central - tau1 / res - 1) (central - tau2 / res - 1)) rest
            else hist
          else g3Inner p1 p2 p3 cw res central t1 c1 t2 c2 hist rest
        else g3Inner p1 p2 p3 cw res central t1 c1 t2 c2 hist rest
      else if c1 = p2 then
        if c2 = p1 then
          if c3 = p3 then
            -- (312): tau_1 > 0, tau_2 < 0
            let tau1 := delta12
            let tau2 := delta23
            if tau1 < cw ∧ tau2 < cw then
              g3Inner p1 p2 p3 cw res central t1 c1 t2 c2
                (bump2 hist (central + tau1 / res) (central - tau2 / res - 1)) rest
            else hist
          else g3Inner p1 p2 p3 cw res central t1 c1 t2 c2 hist rest
        else if c2 = p3 then
          if c3 = p1 then
            -- (132): tau_1 > 0, tau_2 > 0
            let tau1 := delta13
            let tau2 := delta23
            if tau1 < cw ∧ tau2 < cw then
              g3Inner p1 p2 p3 cw res central t1 c1 t2 c2
                (bump2 hist (central + tau1 / res) (central + tau2 / res)) rest
            else hist
          else g3Inner p1 p2 p3 cw res central t1 c1 t2 c2 hist rest
        else g3Inner p1 p2 p3 cw res central t1 c1 t2 c2 hist rest
      else if c1 = p3 then
        if c2 = p1 then
          if c3 = p2 then
            -- (213): tau_1 < 0, tau_2 > 0
            let tau1 := delta23
            let tau2 := delta12
            if tau1 < cw ∧ tau2 < cw then
              g3Inner p1 p2 p3 cw res central t1 c1 t2 c2
                (bump2 hist (central - tau1 / res - 1) (central + tau2 / res)) rest
            else hist
          else g3Inner p1 p2 p3 cw res central t1 c1 t2 c2 hist rest
        else if c2 = p2 then
          if c3 = p1 then
            -- (123): tau_1 > 0, tau_2 > 0
            let tau1 := delta23
            let tau2 := delta13
            if tau1 < cw ∧ tau2 < cw then
              g3Inner p1 p2 p3 cw res central t1 c1 t2 c2
                (bump2 hist (central + tau1 / res) (central + tau2 / res)) rest
            else hist
          else g3Inner p1 p2 p3 cw res central t1 c1 t2 c2 hist rest
        else g3Inner p1 p2 p3 cw res central t1 c1 t2 c2 hist rest
      else g3Inner p1 p2 p3 cw res central t1 c1 t2 c2 hist rest

/-- The outer loop of `G3::compute` (g3.rs lines 70-217): iterate the buffer
newest-first as `(t2, c2)`; `break` when `t1 - t2 > correlation_window`,
else run the inner loop over the full buffer. -/
def g3Outer (p1 p2 p3 : Int) (cw res central : Nat) (t1 : Nat) (c1 : Int)
    (fullBuf : List (Nat × Int)) : (Nat → Nat → Nat) → List (Nat × Int) → Nat → Nat → Nat
  | hist, [] => hist
  | hist, (t2, c2) :: rest =>
    if cw < t1 - t2 then hist
    else g3Outer p1 p2 p3 cw res central t1 c1 fullBuf
      (g3Inner p1 p2 p3 cw res central t1 c1 t2 c2 hist fullBuf) rest

/-- Processing of one event by `G3::compute` (g3.rs lines 64-221): skip
events outside the three configured channels, else run the nested loops;
the caller pushes the event into the buffer afterwards. -/
def g3ProcessEvent (p1 p2 p3 : Int) (cw res central : Nat)
    (hist : Nat → Nat → Nat) (buf : List (Nat × Int)) (t1 : Nat) (c1 : Int) :
    Nat → Nat → Nat :=
  if c1 = p1 ∨ c1 = p2 ∨ c1 = p3 then
    g3Outer p1 p2 p3 cw res central t1 c1 buf hist buf
  else hist

/-- `G3::compute` (g3.rs lines 43-233) with tick-valued parameters (see
`g2Compute` for the precomputation); the event is pushed into the coloured
ring buffer only after the nested iteration over the buffer completes
(line 220). -/
def g3Compute (p1 p2 p3 : Int) (nBinsSide res : Nat) (events : List TTTRRecord) :
    Nat → Nat → Nat :=
  let cw := nBinsSide * res
  let nBins := 2 * nBinsSide
  let central := nBins / 2
  (events.foldl
    (fun st e =>
      (g3ProcessEvent p1 p2 p3 cw res central st.1
        (CircularBuffer.iter (0, 0) st.2) e.tof e.channel,
       CircularBuffer.push 4096 st.2 (e.tof, e.channel)))
    ((fun _ _ => 0), .new (Nat × Int))).1

/-- Modelled from the spec: the six-permutation (τ₁, τ₂) table of §4.7.
Given the configured channels and one ordered pair, returns
`some (τ₁, τ₂, sign₁, sign₂)` when `(c₁, c₂, c₃)` matches a row (`true`
means positive sign), `none` otherwise. -/
def g3Table (p1 p2 p3 : Int) (t1 t2 t3 : Nat) (c1 c2 c3 : Int) :
    Option (Nat × Nat × Bool × Bool) :=
  if c1 = p1 ∧ c2 = p2 ∧ c3 = p3 then some (t1 - t2, t1 - t3, false, false)
  else if c1 = p1 ∧ c2 = p3 ∧ c3 = p2 then some (t1 - t3, t1 - t2, false, false)
  else if c1 = p2 ∧ c2 = p1 ∧ c3 = p3 then some (t1 - t2, t2 - t3, true, false)
  else if c1 = p2 ∧ c2 = p3 ∧ c3 = p1 then some (t1 - t3, t2 - t3, true, true)
  else if c1 = p3 ∧ c2 = p1 ∧ c3 = p2 then some (t2 - t3, t1 - t2, false, true)
  else if c1 = p3 ∧ c2 = p2 ∧ c3 = p1 then some (t2 - t3, t1 - t3, true, true)
  else none

/-- Modelled from the spec: a positive-signed τ lands at
`central_bin + τ/resolution_ticks`, a negative-signed τ at
`central_bin - τ/resolution_ticks - 1`. -/
def g3SpecIdx (res central tau : Nat) (positive : Bool) : Nat :=
  if positive then central + tau / res else central - tau / res - 1

/-- Modelled from the spec: the contribution of one ordered buffered pair;
it counts exactly when `t₃ < t₂`, the channels match a row of the table and
both delays are inside the correlation window. -/
def g3SpecPair (p1 p2 p3 : Int) (cw res central : Nat) (t1 : Nat) (c1 : Int)
    (hist : Nat → Nat → Nat) (e2 e3 : Nat × Int) : Nat → Nat → Nat :=
  if e3.1 < e2.1 then
    match g3Table p1 p2 p3 t1 e2.1 e3.1 c1 e2.2 e3.2 with
    | some (tau1, tau2, s1, s2) =>
      if tau1 < cw ∧ tau2 < cw then
        bump2 hist (g3SpecIdx res central tau1 s1) (g3SpecIdx res central tau2 s2)
      else hist
    | none => hist
  else hist

/-- Modelled from the spec: one event's histogram contribution is the sum
over every ordered buffered pair of `g3SpecPair`, with no early exit. -/
def g3SpecStep (p1 p2 p3 : Int) (cw res central : Nat)
    (hist : Nat → Nat → Nat) (buf : List (Nat × Int)) (t1 : Nat) (c1 : Int) :
    Nat → Nat → Nat :=
  if c1 = p1 ∨ c1 = p2 ∨ c1 = p3 then
    buf.foldl (fun h e2 =>
      buf.foldl (fun h2 e3 => g3SpecPair p1 p2 p3 cw res central t1 c1 h2 e2 e3) h)
      hist
  else hist

/-! ### Theorems -/

theorem pushMany_append {α : Type} (cap : Nat) (s : CircularBuffer α) (l : List α) (a : α) :
    CircularBuffer.pushMany cap s (l ++ [a])
      = CircularBuffer.push cap (CircularBuffer.pushMany cap s l) a := by
  simp [CircularBuffer.pushMany, List.foldl_append]

theorem pushMany_state {α : Type} (cap : Nat) (hcap : 1 ≤ cap) (vs : List α) :
    (CircularBuffer.pushMany cap (.new α) vs).buffer.length = min vs.length cap ∧
    (CircularBuffer.pushMany cap (.new α) vs).head = ((vs.length % cap : Nat) : Int) ∧
    ∀ i < min vs.length cap,
      (CircularBuffer.pushMany cap (.new α) vs).buffer[i]?
        = vs[lastWrite vs.length cap i]? := by
  induction vs using List.reverseRecOn with
  | nil =>
    refine ⟨by simp [CircularBuffer.pushMany, CircularBuffer.new], ?_, ?_⟩
    · simp [CircularBuffer.pushMany, CircularBuffer.new]
    · intro i hi
      simp at hi
  | append_singleton l a ih =>
    obtain ⟨ihlen, ihhead, ihget⟩ := ih
    set s := CircularBuffer.pushMany cap (.new α) l with hs
    set n := l.length with hn
    rw [pushMany_append]
    simp only [List.length_append, List.length_singleton, ← hn]
    have hhead2 : (CircularBuffer.push cap s a).head = (((n + 1) % cap : Nat) : Int) := by
      show (s.head + 1) % (cap : Int) = (((n + 1) % cap : Nat) : Int)
      rw [ihhead]
      have h1 : ((n % cap : Nat) : Int) + 1 = ((n % cap + 1 : Nat) : Int) := by push_cast; ring
      rw [h1, ← Int.natCast_mod, Nat.mod_add_mod]
    by_cases hlen : n < cap
    · -- still filling: Vec::push appends
      have hb : (CircularBuffer.push cap s a).buffer = s.buffer ++ [a] := by
        show (if s.buffer.length < cap then s.buffer ++ [a] else _) = _
        rw [ihlen, if_pos (by omega)]
      have hslen : s.buffer.length = n := by rw [ihlen]; omega
      refine ⟨?_, hhead2, ?_⟩
      · rw [hb, List.length_append, hslen]
        simp
        omega
      · intro i hi
        have hi2 : i < n + 1 := by omega
        have hlw : lastWrite (n + 1) cap i = i := by
          unfold lastWrite
          split_ifs <;> omega
        rw [hb, hlw]
        rcases Nat.lt_or_ge i n with h | h
        · rw [List.getElem?_append, hslen, if_pos h, List.getElem?_append, if_pos (by omega)]
          have := ihget i (by omega)
          have hlw2 : lastWrite n cap i = i := by
            unfold lastWrite
            split_ifs <;> omega
          rw [hlw2] at this
          exact this
        · have hieq : i = n := by omega
          subst hieq
          have hL : (s.buffer ++ [a])[n]? = some a := by
            rw [← hslen]
            exact List.getElem?_concat_length _ _
          rw [hL, hn]
          exact (List.getElem?_concat_length l a).symm
    · -- full: write over the slot at head
      have hcle : cap ≤ n := by omega
      have hreq : n % cap = 0 ∨ ¬ (n ≤ cap) := by
        rcases eq_or_lt_of_le hcle with hceq | hclt
        · left
          rw [← hceq]
          exact Nat.mod_self cap
        · right
          omega
      have hb : (CircularBuffer.push cap s a).buffer = s.buffer.set (n % cap) a := by
        show (if s.buffer.length < cap then s.buffer ++ [a] else s.buffer.set s.head.toNat a) = _
        rw [ihlen, if_neg (by omega), ihhead, Int.toNat_natCast]
      have hslen : s.buffer.length = cap := by rw [ihlen]; omega
      have hr : n % cap < cap := Nat.mod_lt _ (by omega)
      have hrsucc : (n + 1) % cap = (n % cap + 1) % cap := by
        rw [Nat.mod_add_mod]
      have hcases : ((n + 1) % cap = n % cap + 1 ∧ n % cap + 1 < cap)
          ∨ ((n + 1) % cap = 0 ∧ n % cap + 1 = cap) := by
        rcases Nat.lt_or_ge (n % cap + 1) cap with h | h
        · left
          refine ⟨?_, h⟩
          rw [hrsucc, Nat.mod_eq_of_lt h]
        · right
          have h2 : n % cap + 1 = cap := by omega
          refine ⟨?_, h2⟩
          rw [hrsucc, h2, Nat.mod_self]
      refine ⟨?_, hhead2, ?_⟩
      · rw [hb, List.length_set, hslen]
        omega
      · intro i hi
        have hi2 : i < cap := by omega
        rw [hb, List.getElem?_set]
        rcases eq_or_ne (n % cap) i with heq | hne
        · -- the freshly overwritten slot holds the new value
          have hlw : lastWrite (n + 1) cap i = n := by
            unfold lastWrite
            rcases hcases with ⟨h1, h2⟩ | ⟨h1, h2⟩ <;> rw [h1] <;> split_ifs <;> omega
          rw [hlw, if_pos heq, if_pos (by omega), hn]
          exact (List.getElem?_concat_length l a).symm
        · -- untouched slots keep their previous last write
          rw [if_neg hne]
          have hlw1 : lastWrite (n + 1) cap i = lastWrite n cap i := by
            unfold lastWrite
            rcases hcases with ⟨h1, h2⟩ | ⟨h1, h2⟩ <;> rw [h1] <;> split_ifs <;>
              rcases hreq with h0 | h0 <;> omega
          have hlt : lastWrite n cap i < n := by
            unfold lastWrite
            split_ifs <;> rcases hreq with h0 | h0 <;> omega
          rw [hlw1, List.getElem?_append, if_pos (by omega)]
          exact ihget i (by omega)

theorem iter_pushMany {α : Type} (d : α) (cap : Nat) (hcap : 1 ≤ cap) (hcap64 : cap ≤ 2 ^ 64)
    (vs : List α) (h : vs.length < cap ∨ 2 ^ 64 % cap = 0) :
    CircularBuffer.iter d (CircularBuffer.pushMany cap (.new α) vs)
      = vs.reverse.take (min vs.length cap) := by
  obtain ⟨hlen, hhead, hget⟩ := pushMany_state cap hcap vs
  set s := CircularBuffer.pushMany cap (.new α) vs with hs
  set n := vs.length with hn
  set m := min n cap with hm
  have hmn : m ≤ n := by omega
  apply List.ext_getElem?
  intro k
  rcases Nat.lt_or_ge k m with hk | hk
  · -- in range: the k-th yield is the (n-1-k)-th push
    have hn1 : n - 1 - k < n := by omega
    have hR : (vs.reverse.take m)[k]? = vs[n - 1 - k]? := by
      rw [List.getElem?_take, if_pos hk, List.getElem?_reverse (by omega)]
    have hkbuf : k < s.buffer.length := by rw [hlen]; omega
    have hL : (CircularBuffer.iter d s)[k]?
        = some (s.buffer.getD (i64AsUsize (s.head - 1 - (k : Int)) % s.buffer.length) d) := by
      unfold CircularBuffer.iter
      rw [List.getElem?_map, List.getElem?_range hkbuf]
      rfl
    have hbufget : s.buffer[i64AsUsize (s.head - 1 - (k : Int)) % s.buffer.length]? = vs[n - 1 - k]? := by
      rw [hhead, hlen]
      by_cases hA : n < cap
      · -- buffer still filling: head = n, no wrap-around
        have hmn2 : m = n := by omega
        have hmod : n % cap = n := Nat.mod_eq_of_lt hA
        have hidx : i64AsUsize (((n % cap : Nat) : Int) - 1 - k) % m = n - 1 - k := by
          rw [hmod, hmn2]
          have : i64AsUsize ((n : Int) - 1 - k) = n - 1 - k := by
            unfold i64AsUsize
            omega
          rw [this, Nat.mod_eq_of_lt hn1]
        rw [hidx]
        have hlw : lastWrite n cap (n - 1 - k) = n - 1 - k := by
          unfold lastWrite
          rw [if_pos (by omega)]
        have := hget (n - 1 - k) (by omega)
        rw [hlw] at this
        exact this
      · -- buffer full: head = n % cap, possible wrap-around through the cast
        have hcle : cap ≤ n := by omega
        have hdvd : 2 ^ 64 % cap = 0 := by
          rcases h with h | h
          · omega
          · exact h
        have hmc : m = cap := by omega
        have hreq : n % cap = 0 ∨ ¬ (n ≤ cap) := by
          rcases eq_or_lt_of_le hcle with hceq | hclt
          · left
            rw [← hceq]
            exact Nat.mod_self cap
          · right
            omega
        have hr : n % cap < cap := Nat.mod_lt _ (by omega)
        rcases Nat.lt_or_ge k (n % cap) with hkr | hkr
        · -- non-negative iterator position
          have hidx : i64AsUsize (((n % cap : Nat) : Int) - 1 - k) % m = n % cap - 1 - k := by
            have : i64AsUsize (((n % cap : Nat) : Int) - 1 - k) = n % cap - 1 - k := by
              unfold i64AsUsize
              omega
            rw [this, hmc, Nat.mod_eq_of_lt (by omega)]
          rw [hidx]
          have hlw : lastWrite n cap (n % cap - 1 - k) = n - 1 - k := by
            unfold lastWrite
            split_ifs <;> rcases hreq with h0 | h0 <;> omega
          have := hget (n % cap - 1 - k) (by omega)
          rw [hlw] at this
          exact this
        · -- negative iterator position: the i64→usize cast wraps modulo 2^64
          obtain ⟨t, ht⟩ : cap ∣ 2 ^ 64 := Nat.dvd_of_mod_eq_zero hdvd
          have ht1 : 1 ≤ t := by
            rcases Nat.eq_zero_or_pos t with h0 | h0
            · rw [h0, Nat.mul_zero] at ht
              norm_num at ht
            · omega
          obtain ⟨u, hu⟩ : ∃ u, t = u + 1 := ⟨t - 1, by omega⟩
          have h64 : 2 ^ 64 = cap * u + cap := by
            rw [ht, hu, Nat.mul_add, Nat.mul_one]
          have hx64 : i64AsUsize (((n % cap : Nat) : Int) - 1 - k)
              = n % cap + 2 ^ 64 - 1 - k := by
            unfold i64AsUsize
            omega
          have hsplit : n % cap + 2 ^ 64 - 1 - k = (n % cap + cap - 1 - k) + cap * u := by
            omega
          have hidx : i64AsUsize (((n % cap : Nat) : Int) - 1 - k) % m
              = n % cap + cap - 1 - k := by
            rw [hx64, hmc, hsplit, Nat.add_mul_mod_self_left,
              Nat.mod_eq_of_lt (by omega)]
          rw [hidx]
          have hlw : lastWrite n cap (n % cap + cap - 1 - k) = n - 1 - k := by
            unfold lastWrite
            split_ifs <;> rcases hreq with h0 | h0 <;> omega
          have := hget (n % cap + cap - 1 - k) (by omega)
          rw [hlw] at this
          exact this
    obtain ⟨x, hx⟩ : ∃ x, vs[n - 1 - k]? = some x := by
      rw [List.getElem?_eq_getElem (by omega : n - 1 - k < vs.length)]
      exact ⟨_, rfl⟩
    rw [hL, hR, hx, List.getD_eq_getElem?_getD, hbufget, hx]
    rfl
  · -- past the end: both sides are exhausted
    have h1 : (CircularBuffer.iter d s)[k]? = none := by
      apply List.getElem?_eq_none
      unfold CircularBuffer.iter
      rw [List.length_map, List.length_range, hlen]
      omega
    have h2 : (vs.reverse.take m)[k]? = none := by
      apply List.getElem?_eq_none
      rw [List.length_take, List.length_reverse]
      omega
    rw [h1, h2]

theorem t2Run_some {σ : Type} (parse : Nat → σ → TTTRRecord × σ) {s : T2Stream σ}
    {r : TTTRRecord} {s2 : T2Stream σ} (h : t2Next parse s = some (r, s2)) :
    t2Run parse s = r :: t2Run parse s2 := by
  rw [t2Run]
  split
  · rename_i hnone
    rw [h] at hnone
    exact absurd hnone (by simp)
  · rename_i r2 s3 hsome
    rw [h] at hsome
    simp only [Option.some.injEq, Prod.mk.injEq] at hsome
    obtain ⟨hr, hs⟩ := hsome
    rw [hr, hs]

theorem t2Run_none {σ : Type} (parse : Nat → σ → TTTRRecord × σ) {s : T2Stream σ}
    (h : t2Next parse s = none) : t2Run parse s = [] := by
  rw [t2Run]
  split
  · rfl
  · rename_i r2 s3 hsome
    rw [h] at hsome
    exact absurd hsome (by simp)

theorem t2Run_length_aux {σ : Type} (parse : Nat → σ → TTTRRecord × σ) (fuel : Nat) :
    ∀ s : T2Stream σ, s.numRecords - s.clickCount ≤ fuel →
    s.buffer.length ≤ s.numRecords - s.clickCount →
    s.numRecords - s.clickCount - s.buffer.length ≤ s.file.length →
    (t2Run parse s).length = s.numRecords - s.clickCount := by
  induction fuel with
  | zero =>
    intro s hfuel hbuf hfile
    have hc : s.numRecords ≤ s.clickCount := by omega
    rw [t2Run_none parse (by unfold t2Next; rw [if_pos hc])]
    simp
    omega
  | succ fuel ih =>
    intro s hfuel hbuf hfile
    by_cases hc : s.numRecords ≤ s.clickCount
    · rw [t2Run_none parse (by unfold t2Next; rw [if_pos hc])]
      simp
      omega
    · rcases hb : s.buffer with _ | ⟨r0, rest⟩
      · -- empty click buffer: refill with min(remaining, 16384) words
        rw [hb] at hbuf hfile
        simp only [List.length_nil, Nat.sub_zero] at hbuf hfile
        set req := min (s.numRecords - s.clickCount) 16384 with hreq
        have hreq1 : 1 ≤ req := by omega
        have hreqle : req ≤ s.numRecords - s.clickCount := by omega
        have hflen : ¬ s.file.length < req := by omega
        have htake : s.file.take req ≠ [] := by
          intro hempty
          have := congrArg List.length hempty
          rw [List.length_take] at this
          simp only [List.length_nil] at this
          omega
        rcases ht : s.file.take req with _ | ⟨r1, rest1⟩
        · exact absurd ht htake
        · have hrest1 : rest1.length = req - 1 := by
            have := congrArg List.length ht
            rw [List.length_take] at this
            simp only [List.length_cons] at this
            omega
          have hnext : t2Next parse s = some ((parse r1 s.decoderState).1,
              ⟨s.file.drop req, rest1, s.clickCount + 1, s.numRecords,
                (parse r1 s.decoderState).2⟩) := by
            unfold t2Next
            rw [if_neg hc, hb]
            simp only
            rw [if_neg hflen, ← hreq, ht]
          rw [t2Run_some parse hnext, List.length_cons]
          have hrec := ih ⟨s.file.drop req, rest1, s.clickCount + 1, s.numRecords,
              (parse r1 s.decoderState).2⟩
          dsimp only at hrec
          rw [hrec (by omega) (by omega) (by rw [List.length_drop]; omega)]
          omega
      · -- yield straight from the buffer
        have hblen : rest.length + 1 = s.buffer.length := by rw [hb]; simp
        have hnext : t2Next parse s = some ((parse r0 s.decoderState).1,
            ⟨s.file, rest, s.clickCount + 1, s.numRecords, (parse r0 s.decoderState).2⟩) := by
          unfold t2Next
          rw [if_neg hc, hb]
        rw [t2Run_some parse hnext, List.length_cons]
        have hrec := ih ⟨s.file, rest, s.clickCount + 1, s.numRecords,
            (parse r0 s.decoderState).2⟩
        dsimp only at hrec
        rw [hrec (by omega) (by omega) (by omega)]
        omega

/-- The macro-generated T2 stream framing yields exactly `num_records`
events when the file holds at least that many words past the seek position
(no short read). -/
theorem t2Run_length {σ : Type} (parse : Nat → σ → TTTRRecord × σ)
    (file : List Nat) (n : Nat) (d : σ) (hfile : n ≤ file.length) :
    (t2Run parse ⟨file, [], 0, n, d⟩).length = n := by
  have := t2Run_length_aux parse n ⟨file, [], 0, n, d⟩ (by simp) (by simp) (by simpa)
  simpa using this

theorem hht3Run_some {s : HHT3Stream} {r : TTTRRecord} {s2 : HHT3Stream}
    (h : hht3Next s = some (r, s2)) : hht3Run s = r :: hht3Run s2 := by
  rw [hht3Run]
  split
  · rename_i hnone
    rw [h] at hnone
    exact absurd hnone (by simp)
  · rename_i r2 s3 hsome
    rw [h] at hsome
    simp only [Option.some.injEq, Prod.mk.injEq] at hsome
    obtain ⟨hr, hs⟩ := hsome
    rw [hr, hs]

theorem hht3Run_none {s : HHT3Stream} (h : hht3Next s = none) : hht3Run s = [] := by
  rw [hht3Run]
  split
  · rfl
  · rename_i r2 s3 hsome
    rw [h] at hsome
    exact absurd hsome (by simp)

/-- Draining a non-empty click buffer yields one event per buffered word
before the next read is attempted. -/
theorem hht3Run_drain (l : List Nat) : ∀ (file : List Nat) (cc n : Nat) (st : T3State),
    (hht3Run ⟨file, l, cc, n, st⟩).length
      = l.length + (hht3Run ⟨file, [], cc + l.length, n, t3Fold st l⟩).length := by
  induction l with
  | nil =>
    intro file cc n st
    simp [t3Fold]
  | cons r rest ih =>
    intro file cc n st
    have hnext : hht3Next ⟨file, r :: rest, cc, n, st⟩ = some ((hht3ParseRecord r st).1,
        ⟨file, rest, cc + 1, n, (hht3ParseRecord r st).2⟩) := by
      unfold hht3Next
      simp only
    rw [hht3Run_some hnext, List.length_cons, ih file (cc + 1) n (hht3ParseRecord r st).2]
    simp only [List.length_cons, t3Fold]
    rw [show cc + (rest.length + 1) = cc + 1 + rest.length from by omega]
    omega

theorem hht3Next_first_block :
    hht3Next ⟨List.replicate 32768 0, [], 0, 1, ⟨0, 12500, 4⟩⟩
      = some (⟨1, 0⟩, ⟨List.replicate 16384 0, List.replicate 16383 0, 1, 1, ⟨0, 12500, 4⟩⟩) := by
  have htake : List.take 16384 (List.replicate 32768 (0 : Nat)) = 0 :: List.replicate 16383 0 := by
    rw [List.take_replicate]
    norm_num
    rw [show (16384 : Nat) = 16383 + 1 from by norm_num]
    rfl
  have hdrop : List.drop 16384 (List.replicate 32768 (0 : Nat)) = List.replicate 16384 0 := by
    rw [List.drop_replicate]
  have hp : hht3ParseRecord 0 ⟨0, 12500, 4⟩ = (⟨1, 0⟩, ⟨0, 12500, 4⟩) := by decide
  unfold hht3Next
  simp only [List.length_replicate]
  rw [if_neg (by norm_num), if_neg (by norm_num), htake, hdrop]
  simp only [hp]

theorem hht3Next_exhausted (st : T3State) :
    hht3Next ⟨List.replicate 16384 0, [], 16384, 1, st⟩ = none := by
  unfold hht3Next
  simp only [List.length_replicate]
  rw [if_neg (by norm_num), if_pos (by norm_num)]

theorem hht3Run_overcount :
    (hht3Run ⟨List.replicate 32768 0, [], 0, 1, ⟨0, 12500, 4⟩⟩).length = 16384 := by
  rw [hht3Run_some hht3Next_first_block, List.length_cons, hht3Run_drain]
  simp only [List.length_replicate]
  rw [show (1 : Nat) + 16383 = 16384 from by norm_num]
  rw [hht3Run_none (hht3Next_exhausted _)]
  simp

end TTTR

namespace TTTR

/-! ### Claims -/

/-- Claim C1: the specification maps RecType code 0x00010204 (HydraHarpT2,
the V1 device) to the HHT2_HH1 decoder and 0x01010204 (HydraHarp2T2, V2) to
HHT2_HH2.  The source's `record_type` has the two arms swapped — against
its own `(V1)`/`(V2)` enum comments and the decoders' own names — mapping
0x00010204 to HHT2_HH2 and 0x01010204 to HHT2_HH1.  This theorem evaluates
the embedded lookup at both codes, exhibiting the swap. -/
theorem claim_C1 :
    recordTypeOfCode 0x00010204 = .ok .HHT2_HH2 ∧
    recordTypeOfCode 0x01010204 = .ok .HHT2_HH1 :=
  ⟨rfl, rfl⟩

/-- Claim C2: the record 0x7E000001 has sp = 0 (a photon record, emitted
channel 64) and ch = 0x3F, yet the HHT2_HH2 decoder advances the overflow
accumulator by 33554432·tm = 33554432, because the source multiplies only
by `(ch == 0x3F)` and not by `sp`.  The claim says records with sp = 0
leave the accumulator unchanged. -/
theorem claim_C2 :
    ((0x7E000001 : Nat) &&& 0x80000000) >>> 31 = 0 ∧
    (hht2hh2ParseRecord 0x7E000001 0).2 = 33554432 ∧
    (hht2hh2ParseRecord 0x7E000001 0).1.channel = 64 := by
  decide

/-- Claim C4: on the stream (ch 0, t 5), (ch 0, t 15), (ch 0, t 28) with
ticks_per_bin 10 the intensity trace is [2, 1] with record numbers [1, 2]
(and no trailing bin), not the claimed [1, 1]: the source increments the
counter before testing the bin boundary, so the event that triggers
emission is counted into the closed bin.  Both with and without a channel
filter. -/
theorem claim_C4 :
    timeTraceCompute none 10 [⟨0, 5⟩, ⟨0, 15⟩, ⟨0, 28⟩] = ([2, 1], [1, 2]) ∧
    timeTraceCompute (some 0) 10 [⟨0, 5⟩, ⟨0, 15⟩, ⟨0, 28⟩] = ([2, 1], [1, 2]) := by
  decide

/-- Claim C5 (counterexample): with channel_1 = 1, channel_2 = 2,
cw = 200 ticks, resolution = 50 ticks (so n_bins = 8, central_bin = 4), the
four increments claimed at central+1, central−2, central+1, central−2 would
give the histogram [0,0,2,0,0,2,0,0]; the engine computes something else. -/
theorem claim_C5_counterexample :
    g2Compute 1 2 4 50 [⟨1, 100⟩, ⟨2, 150⟩, ⟨1, 200⟩, ⟨2, 260⟩]
      ≠ [0, 0, 2, 0, 0, 2, 0, 0] := by
  decide

/-- Claim C5 (amended): the asymmetric g2 engine on the four-event stream
performs exactly four increments, at central+1 (Δ=50), central−2 (Δ=50),
central+1 (Δ=60) and central+3 (Δ=160): the final histogram is
[0,0,1,0,0,2,0,1] with central_bin = 4. -/
theorem claim_C5 :
    g2Compute 1 2 4 50 [⟨1, 100⟩, ⟨2, 150⟩, ⟨1, 200⟩, ⟨2, 260⟩]
      = [0, 0, 1, 0, 0, 2, 0, 1] := by
  decide

end TTTR

namespace TTTR

theorem pht2_overflow_eq (record overflow : Nat)
    (h1 : (record &&& 0xF0000000) >>> 28 = 0xF)
    (h2 : record &&& 0x0FFFFFFF &&& 0xF = 0) :
    pht2ParseRecord record overflow = (⟨-1, 0⟩, overflow + 210698240) := by
  have hA : (((record &&& 0xF0000000) >>> 28 : Nat) : Int) = 0xF := by exact_mod_cast h1
  simp only [pht2ParseRecord]
  rw [if_pos hA, if_pos h2]

theorem pht2_run_overflow (rs : List Nat)
    (h : ∀ r ∈ rs, (r &&& 0xF0000000) >>> 28 = 0xF ∧ r &&& 0x0FFFFFFF &&& 0xF = 0) :
    ∀ overflow : Nat, pht2FoldOverflow overflow rs = overflow + rs.length * 210698240 := by
  induction rs with
  | nil =>
    intro overflow
    simp [pht2FoldOverflow]
  | cons r rest ih =>
    intro overflow
    obtain ⟨h1, h2⟩ := h r (List.mem_cons_self r rest)
    rw [pht2FoldOverflow, pht2_overflow_eq r overflow h1 h2]
    rw [ih (fun x hx => h x (List.mem_cons_of_mem r hx))]
    simp only [List.length_cons]
    ring

/-- Claim C7: classification of the three PHT2 record kinds (overflow,
marker, photon) with the exact emitted events and accumulator updates, and
the run property: a sequence of K consecutive overflow records advances the
accumulator by exactly K · 210698240. -/
theorem claim_C7 (record overflow : Nat) :
    (((record &&& 0xF0000000) >>> 28 = 0xF ∧ record &&& 0x0FFFFFFF &&& 0xF = 0) →
      pht2ParseRecord record overflow = (⟨-1, 0⟩, overflow + 210698240)) ∧
    (((record &&& 0xF0000000) >>> 28 = 0xF ∧ record &&& 0x0FFFFFFF &&& 0xF ≠ 0) →
      pht2ParseRecord record overflow
        = (⟨-2, overflow + (record &&& 0x0FFFFFFF)⟩, overflow)) ∧
    ((record &&& 0xF0000000) >>> 28 ≠ 0xF →
      pht2ParseRecord record overflow
        = (⟨(((record &&& 0xF0000000) >>> 28 : Nat) : Int),
            overflow + (record &&& 0x0FFFFFFF)⟩, overflow)) ∧
    (∀ rs : List Nat,
      (∀ r ∈ rs, (r &&& 0xF0000000) >>> 28 = 0xF ∧ r &&& 0x0FFFFFFF &&& 0xF = 0) →
      pht2FoldOverflow overflow rs = overflow + rs.length * 210698240) := by
  refine ⟨?_, ?_, ?_, ?_⟩
  · rintro ⟨h1, h2⟩
    exact pht2_overflow_eq record overflow h1 h2
  · rintro ⟨h1, h2⟩
    have hA : (((record &&& 0xF0000000) >>> 28 : Nat) : Int) = 0xF := by exact_mod_cast h1
    simp only [pht2ParseRecord]
    rw [if_pos hA, if_neg h2]
  · intro h1
    have hA : ¬ ((((record &&& 0xF0000000) >>> 28 : Nat) : Int) = 0xF) := by
      intro hcast
      exact h1 (by exact_mod_cast hcast)
    simp only [pht2ParseRecord]
    rw [if_neg hA]
  · intro rs h
    exact pht2_run_overflow rs h overflow

/-- Claim C7 (witness): the three classification clauses and the run clause
at concrete records (0xF0000000 overflow, 0xF0000003 marker, 0x20000004
photon on channel 2). -/
theorem claim_C7_witness :
    pht2ParseRecord 0xF0000000 5 = (⟨-1, 0⟩, 5 + 210698240) ∧
    pht2ParseRecord 0xF0000003 7 = (⟨-2, 7 + 3⟩, 7) ∧
    pht2ParseRecord 0x20000004 9 = (⟨2, 9 + 4⟩, 9) ∧
    pht2FoldOverflow 11 [0xF0000000, 0xF0000000, 0xF0000000] = 11 + 3 * 210698240 := by
  refine ⟨(claim_C7 0xF0000000 5).1 (by decide), ?_, ?_, ?_⟩
  · have h := (claim_C7 0xF0000003 7).2.1 (by decide)
    simpa using h
  · have h := (claim_C7 0x20000004 9).2.2.1 (by decide)
    simpa using h
  · have h := (claim_C7 0 11).2.2.2 [0xF0000000, 0xF0000000, 0xF0000000] (by decide)
    simpa using h

/-- Claim C8 (counterexample): pushing [10, 20, 30] into a capacity-3
scalar ring buffer and iterating yields [10, 30, 20] — `min(N, C) = 3`
elements, but not in reverse-push order ([30, 20, 10]) and revisiting
nothing is violated in spirit: slot 0 is read through the wrapped
`(-1) as usize` cast, which is only correct modulo a capacity that divides
2^64. -/
theorem claim_C8_counterexample :
    CircularBuffer.iter 0 (CircularBuffer.pushMany 3 (.new Nat) [10, 20, 30]) = [10, 30, 20] ∧
    [10, 30, 20] ≠ [30, 20, 10] := by
  decide

/-- Claim C8 (amended): for every capacity C ≥ 1 (of usize range) and every
push sequence, iteration yields exactly min(N, C) elements in strict
reverse-push order provided fewer pushes than the capacity have occurred
(N < C), or the capacity divides 2^64 — in particular the engines'
power-of-two capacity 4096.  The element type is a parameter, covering the
scalar (`Nat`) and coloured (`Nat × Int`) buffers, whose code is identical. -/
theorem claim_C8 {α : Type} (d : α) (cap : Nat) (vs : List α) (hcap : 1 ≤ cap)
    (hcap64 : cap ≤ 2 ^ 64) (h : vs.length < cap ∨ 2 ^ 64 % cap = 0) :
    CircularBuffer.iter d (CircularBuffer.pushMany cap (.new α) vs)
      = vs.reverse.take (min vs.length cap) :=
  iter_pushMany d cap hcap hcap64 vs h

/-- Claim C8 (witness): a wrapped capacity-4 scalar buffer and a wrapped
capacity-2 coloured buffer, both yielding newest-to-oldest. -/
theorem claim_C8_witness :
    CircularBuffer.iter 0 (CircularBuffer.pushMany 4 (.new Nat) [10, 20, 30, 40, 50, 60])
      = [60, 50, 40, 30] ∧
    CircularBuffer.iter ((0 : Nat), (0 : Int))
        (CircularBuffer.pushMany 2 (.new (Nat × Int)) [(5, 1), (7, 2), (9, 3)])
      = [(9, 3), (7, 2)] := by
  constructor
  · have h := claim_C8 0 4 [10, 20, 30, 40, 50, 60] (by norm_num) (by norm_num)
      (Or.inr (by norm_num))
    simpa using h
  · have h := claim_C8 ((0 : Nat), (0 : Int)) 2 [(5, 1), (7, 2), (9, 3)] (by norm_num)
      (by norm_num) (Or.inr (by norm_num))
    simpa using h

/-- Claim C9 (counterexample): invoking the g2 engine on the
`NotImplemented` sentinel record type hits an explicit `panic!` in the
dispatcher — a crash, not an error return. -/
theorem claim_C9_counterexample :
    g2Dispatch RecordType.NotImplemented = EngineOutcome.panicked ∧
    ∀ e : Error, g2Dispatch RecordType.NotImplemented ≠ EngineOutcome.err e := by
  refine ⟨rfl, ?_⟩
  intro e h
  simp [g2Dispatch] at h

/-- Claim C9 (amended): the T3-only lifetime engine surfaces a
NotImplemented error return on each of the three T2 record types, while the
`NotImplemented` sentinel makes both the lifetime and g2 dispatchers panic
instead of returning an error. -/
theorem claim_C9 :
    lifetimeDispatch RecordType.PHT2 = EngineOutcome.err Error.notImplemented ∧
    lifetimeDispatch RecordType.HHT2_HH1 = EngineOutcome.err Error.notImplemented ∧
    lifetimeDispatch RecordType.HHT2_HH2 = EngineOutcome.err Error.notImplemented ∧
    lifetimeDispatch RecordType.NotImplemented = EngineOutcome.panicked ∧
    g2Dispatch RecordType.NotImplemented = EngineOutcome.panicked := by
  decide

/-- Claim C3 (amended): the macro-generated T2 stream framing (shared by
the PHT2, HHT2_HH1 and HHT2_HH2 streams, which differ only in the `parse`
state machine) yields exactly `b − a` decoded events for a record range
[a, b) when the file holds at least that many words past the seek position;
a short read is modelled as the iterator returning `none`, terminating
iteration cleanly with no error channel at all.  The HHT3_HH2 stream does
not satisfy the exact count (see the counterexample). -/
theorem claim_C3 {σ : Type} (parse : Nat → σ → TTTRRecord × σ)
    (file : List Nat) (n : Nat) (d : σ) (hfile : n ≤ file.length) :
    (t2Run parse ⟨file, [], 0, n, d⟩).length = n :=
  t2Run_length parse file n d hfile

/-- Claim C3 (witness): a PHT2 stream over a three-word file with record
range [0, 2) yields exactly two events. -/
theorem claim_C3_witness :
    (t2Run pht2ParseRecord ⟨[0x00000001, 0x00000002, 0x00000003], [], 0, 2, 0⟩).length = 2 :=
  claim_C3 pht2ParseRecord [0x00000001, 0x00000002, 0x00000003] 2 0 (by norm_num)

/-- Claim C3 (counterexample): the HHT3_HH2 stream with record range [0, 1)
over a 32768-word file (so no read ever short-reads) yields 16384 events,
not 1: its `next` refills the 16384-word buffer unconditionally and only
compares `click_count` with `num_records` at refill boundaries. -/
theorem claim_C3_counterexample :
    (hht3Run ⟨List.replicate 32768 0, [], 0, 1, ⟨0, 12500, 4⟩⟩).length = 16384 ∧
    (16384 : Nat) ≠ 1 :=
  ⟨hht3Run_overcount, by decide⟩

end TTTR

namespace TTTR

theorem zeroFinder_keeps_prev2 (ch1 ch2 : Int) (cw res central : Nat) :
    ∀ (pre : List TTTRRecord) (hist : List Nat) (p1 : Nat),
    (∀ e ∈ pre, e.channel ≠ ch2) →
    (pre.foldl (zeroFinderStep ch1 ch2 cw res central) (hist, p1, 0)).2.2 = 0 := by
  intro pre
  induction pre with
  | nil =>
    intro hist p1 h
    rfl
  | cons e es ih =>
    intro hist p1 h
    have he : e.channel ≠ ch2 := h e (List.mem_cons_self e es)
    have htl : ∀ x ∈ es, x.channel ≠ ch2 := fun x hx => h x (List.mem_cons_of_mem e hx)
    rw [List.foldl_cons]
    simp only [zeroFinderStep]
    by_cases h1 : e.channel = ch1
    · rw [if_pos h1]
      by_cases h2 : e.tof - 0 < cw
      · rw [if_pos h2]
        exact ih _ _ htl
      · rw [if_neg h2]
        exact ih _ _ htl
    · rw [if_neg h1, if_neg he]
      exact ih _ _ htl

theorem zeroFinder_keeps_prev1 (ch1 ch2 : Int) (cw res central : Nat) :
    ∀ (pre : List TTTRRecord) (hist : List Nat) (p2 : Nat),
    (∀ e ∈ pre, e.channel ≠ ch1) →
    (pre.foldl (zeroFinderStep ch1 ch2 cw res central) (hist, 0, p2)).2.1 = 0 := by
  intro pre
  induction pre with
  | nil =>
    intro hist p2 h
    rfl
  | cons e es ih =>
    intro hist p2 h
    have he : e.channel ≠ ch1 := h e (List.mem_cons_self e es)
    have htl : ∀ x ∈ es, x.channel ≠ ch1 := fun x hx => h x (List.mem_cons_of_mem e hx)
    rw [List.foldl_cons]
    simp only [zeroFinderStep]
    rw [if_neg he]
    by_cases h1 : e.channel = ch2
    · rw [if_pos h1]
      by_cases h2 : e.tof - 0 < cw
      · rw [if_pos h2]
        exact ih _ _ htl
      · rw [if_neg h2]
        exact ih _ _ htl
    · rw [if_neg h1]
      exact ih _ _ htl

/-- Claim C10: the zero-delay finder initialises the retained per-channel
times to 0, so an in-window channel_1 event arriving before any channel_2
event increments `histogram[central_bin - tof/resolution_ticks - 1]` as if
a channel_2 event had occurred at time 0, and symmetrically an early
channel_2 event increments `histogram[central_bin + tof/resolution_ticks]`. -/
theorem claim_C10 (ch1 ch2 : Int) (cw res central : Nat) (pre : List TTTRRecord)
    (t : Nat) (hne : ch1 ≠ ch2) (ht : t < cw) :
    ((∀ e ∈ pre, e.channel ≠ ch2) →
      ((pre ++ [(⟨ch1, t⟩ : TTTRRecord)]).foldl (zeroFinderStep ch1 ch2 cw res central)
          (List.replicate (2 * central) 0, 0, 0)).1
        = bump (pre.foldl (zeroFinderStep ch1 ch2 cw res central)
            (List.replicate (2 * central) 0, 0, 0)).1 (central - t / res - 1)) ∧
    ((∀ e ∈ pre, e.channel ≠ ch1) →
      ((pre ++ [(⟨ch2, t⟩ : TTTRRecord)]).foldl (zeroFinderStep ch1 ch2 cw res central)
          (List.replicate (2 * central) 0, 0, 0)).1
        = bump (pre.foldl (zeroFinderStep ch1 ch2 cw res central)
            (List.replicate (2 * central) 0, 0, 0)).1 (central + t / res)) := by
  constructor
  · intro hpre
    rw [List.foldl_append, List.foldl_cons, List.foldl_nil]
    rcases hst : pre.foldl (zeroFinderStep ch1 ch2 cw res central)
        (List.replicate (2 * central) 0, 0, 0) with ⟨h0, p1, p2⟩
    have hp2 : p2 = 0 := by
      have h := zeroFinder_keeps_prev2 ch1 ch2 cw res central pre
        (List.replicate (2 * central) 0) 0 hpre
      rw [hst] at h
      exact h
    subst hp2
    simp only [zeroFinderStep]
    simp only [if_true, Nat.sub_zero]
    rw [if_pos ht]
  · intro hpre
    rw [List.foldl_append, List.foldl_cons, List.foldl_nil]
    rcases hst : pre.foldl (zeroFinderStep ch1 ch2 cw res central)
        (List.replicate (2 * central) 0, 0, 0) with ⟨h0, p1, p2⟩
    have hp1 : p1 = 0 := by
      have h := zeroFinder_keeps_prev1 ch1 ch2 cw res central pre
        (List.replicate (2 * central) 0) 0 hpre
      rw [hst] at h
      exact h
    subst hp1
    simp only [zeroFinderStep]
    rw [if_neg (by simpa using hne.symm)]
    simp only [if_true, Nat.sub_zero]
    rw [if_pos ht]

/-- Claim C10 (witness): with channels 1/2, cw = 200 ticks, res = 50 ticks,
central_bin = 4, a channel-1 event at t = 120 after a prefix with no
channel-2 events lands a phantom count in bin central−3 = 1. -/
theorem claim_C10_witness :
    (([⟨1, 3⟩, ⟨7, 4⟩, ⟨1, 120⟩] : List TTTRRecord).foldl
        (zeroFinderStep 1 2 200 50 4) (List.replicate 8 0, 0, 0)).1
      = bump (([⟨1, 3⟩, ⟨7, 4⟩] : List TTTRRecord).foldl
          (zeroFinderStep 1 2 200 50 4) (List.replicate 8 0, 0, 0)).1 1 := by
  have h := (claim_C10 1 2 200 50 4 [⟨1, 3⟩, ⟨7, 4⟩] 120 (by decide) (by decide)).1
    (by decide)
  simpa using h

end TTTR

namespace TTTR

theorem foldl_fixed {β γ : Type} (f : γ → β → γ) (l : List β)
    (h : ∀ acc x, x ∈ l → f acc x = acc) : ∀ a, l.foldl f a = a := by
  induction l with
  | nil =>
    intro a
    rfl
  | cons x xs ih =>
    intro a
    rw [List.foldl_cons, h a x (List.mem_cons_self x xs)]
    exact ih (fun acc y hy => h acc y (List.mem_cons_of_mem x hy)) a

theorem g3SpecPair_id {p1 p2 p3 : Int} {cw res central t1 : Nat} {c1 : Int}
    (hist : Nat → Nat → Nat) (e2 e3 : Nat × Int)
    (h : ∀ v, e3.1 < e2.1 → g3Table p1 p2 p3 t1 e2.1 e3.1 c1 e2.2 e3.2 = some v →
      ¬(v.1 < cw ∧ v.2.1 < cw)) :
    g3SpecPair p1 p2 p3 cw res central t1 c1 hist e2 e3 = hist := by
  unfold g3SpecPair
  by_cases hlt : e3.1 < e2.1
  · rw [if_pos hlt]
    rcases htab : g3Table p1 p2 p3 t1 e2.1 e3.1 c1 e2.2 e3.2 with _ | ⟨tau1, tau2, s1, s2⟩
    · rfl
    · have hw := h (tau1, tau2, s1, s2) hlt htab
      simp only at hw
      dsimp only
      rw [if_neg hw]
  · rw [if_neg hlt]

theorem g3Table_delta12_le (p1 p2 p3 : Int) (t1 t2 t3 : Nat) (c1 c2 c3 : Int)
    (v : Nat × Nat × Bool × Bool) (hlt : t3 < t2)
    (h : g3Table p1 p2 p3 t1 t2 t3 c1 c2 c3 = some v) :
    t1 - t2 ≤ v.1 ∨ t1 - t2 ≤ v.2.1 := by
  unfold g3Table at h
  split_ifs at h <;>
    first
      | exact Option.noConfusion h
      | (simp only [Option.some.injEq] at h
         subst h
         dsimp only
         omega)

set_option maxHeartbeats 1600000 in
theorem g3Table_mono (p1 p2 p3 : Int) (hd12 : p1 ≠ p2) (hd13 : p1 ≠ p3) (hd23 : p2 ≠ p3)
    (t1 t2 t3 t3x : Nat) (c1 c2 c3 c3x : Int) (h3x : t3x ≤ t3)
    (v vx : Nat × Nat × Bool × Bool)
    (htab : g3Table p1 p2 p3 t1 t2 t3 c1 c2 c3 = some v)
    (htabx : g3Table p1 p2 p3 t1 t2 t3x c1 c2 c3x = some vx) :
    v.1 ≤ vx.1 ∧ v.2.1 ≤ vx.2.1 := by
  unfold g3Table at htab htabx
  split_ifs at htab htabx <;>
    first
      | exact Option.noConfusion htab
      | exact Option.noConfusion htabx
      | (simp only [Option.some.injEq] at htab htabx
         subst htab
         subst htabx
         dsimp only
         constructor <;> omega)

end TTTR

namespace TTTR

theorem g3Inner_cons (p1 p2 p3 : Int) (cw res central t1 : Nat) (c1 : Int)
    (t2 : Nat) (c2 : Int) (t3 : Nat) (c3 : Int) (rest : List (Nat × Int))
    (hist : Nat → Nat → Nat)
    (hd12 : p1 ≠ p2) (hd13 : p1 ≠ p3) (hd23 : p2 ≠ p3) (hlt : t3 < t2) :
    g3Inner p1 p2 p3 cw res central t1 c1 t2 c2 hist ((t3, c3) :: rest)
      = (match g3Table p1 p2 p3 t1 t2 t3 c1 c2 c3 with
        | some (tau1, tau2, s1, s2) =>
          if tau1 < cw ∧ tau2 < cw then
            g3Inner p1 p2 p3 cw res central t1 c1 t2 c2
              (bump2 hist (g3SpecIdx res central tau1 s1) (g3SpecIdx res central tau2 s2)) rest
          else hist
        | none => g3Inner p1 p2 p3 cw res central t1 c1 t2 c2 hist rest) := by
  have hno : ¬ t2 ≤ t3 := by omega
  by_cases h1 : c1 = p1
  · subst h1
    by_cases h2 : c2 = p2
    · subst h2
      by_cases h3 : c3 = p3
      · subst h3
        simp [g3Inner, g3Table, g3SpecIdx, hno, hd12, hd13, hd23,
          Ne.symm hd12, Ne.symm hd13, Ne.symm hd23]
      · simp [g3Inner, g3Table, g3SpecIdx, hno, h3, hd12, hd13, hd23,
          Ne.symm hd12, Ne.symm hd13, Ne.symm hd23]
    · by_cases h2b : c2 = p3
      · subst h2b
        by_cases h3 : c3 = p2
        · subst h3
          simp [g3Inner, g3Table, g3SpecIdx, hno, hd12, hd13, hd23,
            Ne.symm hd12, Ne.symm hd13, Ne.symm hd23]
        · simp [g3Inner, g3Table, g3SpecIdx, hno, h3, hd12, hd13, hd23,
            Ne.symm hd12, Ne.symm hd13, Ne.symm hd23]
      · simp [g3Inner, g3Table, g3SpecIdx, hno, h2, h2b, hd12, hd13, hd23,
          Ne.symm hd12, Ne.symm hd13, Ne.symm hd23]
  · by_cases h1b : c1 = p2
    · subst h1b
      by_cases h2 : c2 = p1
      · subst h2
        by_cases h3 : c3 = p3
        · subst h3
          simp [g3Inner, g3Table, g3SpecIdx, hno, hd12, hd13, hd23,
            Ne.symm hd12, Ne.symm hd13, Ne.symm hd23]
        · simp [g3Inner, g3Table, g3SpecIdx, hno, h3, hd12, hd13, hd23,
            Ne.symm hd12, Ne.symm hd13, Ne.symm hd23]
      · by_cases h2b : c2 = p3
        · subst h2b
          by_cases h3 : c3 = p1
          · subst h3
            simp [g3Inner, g3Table, g3SpecIdx, hno, hd12, hd13, hd23,
              Ne.symm hd12, Ne.symm hd13, Ne.symm hd23]
          · simp [g3Inner, g3Table, g3SpecIdx, hno, h3, hd12, hd13, hd23,
              Ne.symm hd12, Ne.symm hd13, Ne.symm hd23]
        · simp [g3Inner, g3Table, g3SpecIdx, hno, h2, h2b, hd12, hd13, hd23,
            Ne.symm hd12, Ne.symm hd13, Ne.symm hd23]
    · by_cases h1c : c1 = p3
      · subst h1c
        by_cases h2 : c2 = p1
        · subst h2
          by_cases h3 : c3 = p2
          · subst h3
            simp [g3Inner, g3Table, g3SpecIdx, hno, hd12, hd13, hd23,
              Ne.symm hd12, Ne.symm hd13, Ne.symm hd23]
          · simp [g3Inner, g3Table, g3SpecIdx, hno, h3, hd12, hd13, hd23,
              Ne.symm hd12, Ne.symm hd13, Ne.symm hd23]
        · by_cases h2b : c2 = p2
          · subst h2b
            by_cases h3 : c3 = p1
            · subst h3
              simp [g3Inner, g3Table, g3SpecIdx, hno, hd12, hd13, hd23,
                Ne.symm hd12, Ne.symm hd13, Ne.symm hd23]
            · simp [g3Inner, g3Table, g3SpecIdx, hno, h3, hd12, hd13, hd23,
                Ne.symm hd12, Ne.symm hd13, Ne.symm hd23]
          · simp [g3Inner, g3Table, g3SpecIdx, hno, h2, h2b, hd12, hd13, hd23,
              Ne.symm hd12, Ne.symm hd13, Ne.symm hd23]
      · simp [g3Inner, g3Table, g3SpecIdx, hno, h1, h1b, h1c, hd12, hd13, hd23,
          Ne.symm hd12, Ne.symm hd13, Ne.symm hd23]

end TTTR

namespace TTTR

theorem g3Inner_eq_spec (p1 p2 p3 : Int) (cw res central t1 : Nat) (c1 : Int)
    (t2 : Nat) (c2 : Int) (hd12 : p1 ≠ p2) (hd13 : p1 ≠ p3) (hd23 : p2 ≠ p3) :
    ∀ l : List (Nat × Int), l.Pairwise (fun a b => b.1 ≤ a.1) →
    ∀ hist : Nat → Nat → Nat,
      g3Inner p1 p2 p3 cw res central t1 c1 t2 c2 hist l
        = l.foldl (fun h e3 => g3SpecPair p1 p2 p3 cw res central t1 c1 h (t2, c2) e3) hist := by
  intro l
  induction l with
  | nil =>
    intro _ hist
    rfl
  | cons e3 rest ih =>
    intro hpw hist
    obtain ⟨t3, c3⟩ := e3
    have hhead := (List.pairwise_cons.mp hpw).1
    have htail := (List.pairwise_cons.mp hpw).2
    rw [List.foldl_cons]
    by_cases hord : t2 ≤ t3
    · -- both sides skip this element
      have hcode : g3Inner p1 p2 p3 cw res central t1 c1 t2 c2 hist ((t3, c3) :: rest)
          = g3Inner p1 p2 p3 cw res central t1 c1 t2 c2 hist rest := by
        simp only [g3Inner]
        rw [if_pos hord]
      have hspec : g3SpecPair p1 p2 p3 cw res central t1 c1 hist (t2, c2) (t3, c3) = hist := by
        unfold g3SpecPair
        rw [if_neg (by simp only []; omega)]
      rw [hcode, hspec]
      exact ih htail hist
    · have hlt : t3 < t2 := by omega
      rw [g3Inner_cons p1 p2 p3 cw res central t1 c1 t2 c2 t3 c3 rest hist hd12 hd13 hd23 hlt]
      rcases htab : g3Table p1 p2 p3 t1 t2 t3 c1 c2 c3 with _ | ⟨tau1, tau2, s1, s2⟩
      · -- no permutation row
        have hspec : g3SpecPair p1 p2 p3 cw res central t1 c1 hist (t2, c2) (t3, c3) = hist := by
          unfold g3SpecPair
          rw [if_pos (by simpa using hlt), htab]
        rw [hspec]
        exact ih htail hist
      · dsimp only
        by_cases hw : tau1 < cw ∧ tau2 < cw
        · rw [if_pos hw]
          have hspec : g3SpecPair p1 p2 p3 cw res central t1 c1 hist (t2, c2) (t3, c3)
              = bump2 hist (g3SpecIdx res central tau1 s1) (g3SpecIdx res central tau2 s2) := by
            unfold g3SpecPair
            rw [if_pos (by simpa using hlt), htab]
            dsimp only
            rw [if_pos hw]
          rw [hspec]
          exact ih htail _
        · rw [if_neg hw]
          have hspec : g3SpecPair p1 p2 p3 cw res central t1 c1 hist (t2, c2) (t3, c3) = hist := by
            unfold g3SpecPair
            rw [if_pos (by simpa using hlt), htab]
            dsimp only
            rw [if_neg hw]
          rw [hspec]
          symm
          apply foldl_fixed
          intro acc x hx
          apply g3SpecPair_id
          intro vx hxlt htabx
          have hmono := g3Table_mono p1 p2 p3 hd12 hd13 hd23 t1 t2 t3 x.1 c1 c2 c3 x.2
            (hhead x hx) (tau1, tau2, s1, s2) vx htab htabx
          dsimp only at hmono
          intro hcontra
          exact hw ⟨by omega, by omega⟩

theorem g3Outer_eq_spec (p1 p2 p3 : Int) (cw res central t1 : Nat) (c1 : Int)
    (fullBuf : List (Nat × Int))
    (hd12 : p1 ≠ p2) (hd13 : p1 ≠ p3) (hd23 : p2 ≠ p3)
    (hfullpw : fullBuf.Pairwise (fun a b => b.1 ≤ a.1)) :
    ∀ l : List (Nat × Int), l.Pairwise (fun a b => b.1 ≤ a.1) →
    ∀ hist : Nat → Nat → Nat,
      g3Outer p1 p2 p3 cw res central t1 c1 fullBuf hist l
        = l.foldl (fun h e2 => fullBuf.foldl
            (fun h2 e3 => g3SpecPair p1 p2 p3 cw res central t1 c1 h2 e2 e3) h) hist := by
  intro l
  induction l with
  | nil =>
    intro _ hist
    rfl
  | cons e2 rest ih =>
    intro hpw hist
    obtain ⟨t2, c2⟩ := e2
    have hhead := (List.pairwise_cons.mp hpw).1
    have htail := (List.pairwise_cons.mp hpw).2
    by_cases hbrk : cw < t1 - t2
    · -- outer break: nothing with an older t2 can land inside the window
      have hcode : g3Outer p1 p2 p3 cw res central t1 c1 fullBuf hist ((t2, c2) :: rest)
          = hist := by
        simp only [g3Outer]
        rw [if_pos hbrk]
      rw [hcode]
      symm
      apply foldl_fixed
      intro acc e2x hmem
      have h2x : e2x.1 ≤ t2 := by
        rcases List.mem_cons.mp hmem with heq | hmemr
        · rw [heq]
        · exact hhead e2x hmemr
      apply foldl_fixed
      intro acc2 e3x hx3
      apply g3SpecPair_id
      intro vx hxlt htabx
      have hge := g3Table_delta12_le p1 p2 p3 t1 e2x.1 e3x.1 c1 e2x.2 e3x.2 vx hxlt htabx
      intro hcontra
      rcases hge with hge | hge <;> omega
    · have hcode : g3Outer p1 p2 p3 cw res central t1 c1 fullBuf hist ((t2, c2) :: rest)
          = g3Outer p1 p2 p3 cw res central t1 c1 fullBuf
              (g3Inner p1 p2 p3 cw res central t1 c1 t2 c2 hist fullBuf) rest := by
        simp only [g3Outer]
        rw [if_neg hbrk]
      rw [hcode, List.foldl_cons,
        ← g3Inner_eq_spec p1 p2 p3 cw res central t1 c1 t2 c2 hd12 hd13 hd23 fullBuf hfullpw hist]
      exact ih htail _

end TTTR

namespace TTTR

/-- Claim C6: for every event on one of the three configured (pairwise
distinct) channels, given the ring-buffer iteration newest-first with
non-increasing times all below the event time, the g3 nested loops count
exactly the ordered buffered pairs with t₃ < t₂ (< t₁) that match a row of
the spec's six-permutation table and whose two delays lie inside the
correlation window, at indices central+τ/res (positive sign) and
central−τ/res−1 (negative sign): the loop body with its two `break`s
computes the same histogram as the break-free spec-side double fold
`g3SpecStep` built from `g3Table`.  The current event is pushed into the
coloured ring buffer only after this processing (see `g3Compute`). -/
theorem claim_C6 (p1 p2 p3 : Int) (cw res central : Nat) (hist : Nat → Nat → Nat)
    (buf : List (Nat × Int)) (t1 : Nat) (c1 : Int)
    (hd12 : p1 ≠ p2) (hd13 : p1 ≠ p3) (hd23 : p2 ≠ p3)
    (hpw : buf.Pairwise (fun a b => b.1 ≤ a.1))
    (hbound : ∀ e ∈ buf, e.1 < t1) :
    g3ProcessEvent p1 p2 p3 cw res central hist buf t1 c1
      = g3SpecStep p1 p2 p3 cw res central hist buf t1 c1 := by
  unfold g3ProcessEvent g3SpecStep
  by_cases hrel : c1 = p1 ∨ c1 = p2 ∨ c1 = p3
  · rw [if_pos hrel, if_pos hrel]
    exact g3Outer_eq_spec p1 p2 p3 cw res central t1 c1 buf hd12 hd13 hd23 hpw buf hpw hist
  · rw [if_neg hrel, if_neg hrel]

/-- Claim C6 (witness): a concrete three-element buffer holding one event
of each channel, strictly descending in time below the current event. -/
theorem claim_C6_witness :
    g3ProcessEvent 1 2 3 40 10 4 (fun _ _ => 0) [(95, 2), (90, 3), (85, 1)] 100 1
      = g3SpecStep 1 2 3 40 10 4 (fun _ _ => 0) [(95, 2), (90, 3), (85, 1)] 100 1 :=
  claim_C6 1 2 3 40 10 4 (fun _ _ => 0) [(95, 2), (90, 3), (85, 1)] 100 1
    (by decide) (by decide) (by decide) (by decide) (by decide)

end TTTR
